import Mathlib

/-!
Verification of the Brainwave-entrainment core against its source.

Decoder model: src/mobile/utils/ThinkGearDecoder.js (class ThinkGearDecoder).
Bytes are modelled as natural numbers (the transport delivers values in 0..255);
the mutable buffer of the JS object is threaded explicitly.  The main parse
loop of parseStream is modelled by the function run below; it is defined
through an explicit fuel argument (runF) so that it is structurally recursive
and kernel-computable.  Fuel equal to the buffer length is always sufficient
because every loop iteration that continues consumes at least one byte.
-/

namespace ThinkGearDecoder

/-- the SYNC byte 0xAA of the ThinkGear wire format (line 1 of the source). -/
def SYNC : ℕ := 0xAA

/-- unpacks a 3-byte (24-bit) big-endian unsigned integer, as in
ThinkGearDecoder.unpack3ByteUnsigned: shifted bit-or of the three bytes. -/
def unpack3ByteUnsigned (bytes : List ℕ) : ℕ :=
  ((bytes.getD 0 0) <<< 16) ||| ((bytes.getD 1 0) <<< 8) ||| bytes.getD 2 0

/-- the parsedValues object built by the payload decode loop: each field is
present only if the corresponding code appeared in the frame payload. -/
structure Parsed where
  poorSignal : Option ℕ := none
  attention : Option ℕ := none
  meditation : Option ℕ := none
  rawEEG : Option ℤ := none
  eegBands : Option (List ℕ) := none
deriving DecidableEq

/-- the 16-bit big-endian word reinterpreted as a signed integer, as in the
rawEEG branch: rawVal > 32767 ? rawVal - 65536 : rawVal. -/
def toSigned16 (v : ℕ) : ℤ := if v > 32767 then (v : ℤ) - 65536 else (v : ℤ)

/-- the 8-band extraction loop of the 0x83 branch (source lines 126-134):
eight consecutive 3-byte big-endian values, in the fixed band order Delta,
Theta, AlphaLow, AlphaHigh, BetaLow, BetaHigh, GammaLow, GammaHigh. -/
def decodeBands (bytes : List ℕ) : List ℕ :=
  (List.range 8).map (fun j => unpack3ByteUnsigned ((bytes.drop (3 * j)).take 3))

/-- the payload decode loop (source lines 73-188), with fuel.  Each iteration
reads one code byte and consumes at least one byte, so fuel equal to the
payload length never runs out before the loop ends by itself.  A `break` in
the source returns the fields accumulated so far. -/
def decodeLoopF : ℕ → List ℕ → Parsed → Parsed
  | 0, _, acc => acc
  | _ + 1, [], acc => acc
  | fuel + 1, code :: rest, acc =>
    if code = 0x80 then
      match rest with
      | [] => acc
      | vlen :: rest2 =>
        if vlen ≠ 0x02 then acc
        else match rest2 with
          | b1 :: b2 :: rest3 =>
              decodeLoopF fuel rest3
                { acc with rawEEG := some (toSigned16 ((b1 <<< 8) ||| b2)) }
          | _ => acc
    else if code = 0x83 then
      match rest with
      | [] => acc
      | vlen :: rest2 =>
        if vlen ≠ 0x18 then acc
        else if rest2.length < 24 then acc
        else decodeLoopF fuel (rest2.drop 24) { acc with eegBands := some (decodeBands rest2) }
    else if code = 0x02 then
      match rest with
      | [] => acc
      | v :: r => decodeLoopF fuel r { acc with poorSignal := some v }
    else if code = 0x04 then
      match rest with
      | [] => acc
      | v :: r => decodeLoopF fuel r { acc with attention := some v }
    else if code = 0x05 then
      match rest with
      | [] => acc
      | v :: r => decodeLoopF fuel r { acc with meditation := some v }
    else if code < 0x80 then
      match rest with
      | [] => acc
      | _ :: r => decodeLoopF fuel r acc
    else
      match rest with
      | [] => acc
      | vlen :: r => decodeLoopF fuel (r.drop vlen) acc

/-- decodes one frame payload into the parsedValues record. -/
def decodePayload (pData : List ℕ) : Parsed := decodeLoopF pData.length pData {}

/-- the conditional output filter (source lines 192-195): a decoded frame is
pushed to the results only if attention, meditation or eegBands is present,
or poorSignal is strictly positive. -/
def emitP (p : Parsed) : Bool :=
  p.attention.isSome || p.meditation.isSome || p.eegBands.isSome ||
    decide (0 < p.poorSignal.getD 0)

/-- checksum of a payload (source lines 60-61): 0xFF - (sum(payload) & 0xFF). -/
def checksumOf (pData : List ℕ) : ℕ := 0xFF - (pData.sum % 256)

/-- one iteration of the outer parse loop of parseStream, after the inner
sync-search loop (source lines 27-29) has discarded leading non-SYNC bytes:
c is the buffer with the sync search done, and recur is the continuation used
by each path that re-enters the outer loop (the shift-and-continue of lines
33-36, the checksum-failure continue of line 69, and the fall-through after a
valid frame was handled).  The three break paths return the buffer unchanged
together with no packets. -/
def iterCoreWith (recur : List ℕ → List Parsed × List ℕ) (c : List ℕ) :
    List Parsed × List ℕ :=
  if c.length < 2 then ([], c)
  else if c.getD 1 0 ≠ SYNC then recur c.tail
  else if c.length < 3 then ([], c)
  else
    let pLength := c.getD 2 0
    let total := pLength + 4
    if c.length < total then ([], c)
    else
      let pData := (c.drop 3).take pLength
      let received := c.getD (total - 1) 0
      let rest := c.drop total
      if checksumOf pData ≠ received then recur rest
      else
        let parsed := decodePayload pData
        let out := recur rest
        (if emitP parsed then parsed :: out.1 else out.1, out.2)

/-- the main parse loop of parseStream (source lines 25-212), with fuel.
Returns the emitted packets and the remaining buffer.  Every re-entry into
the outer loop consumes at least one byte of the buffer, so fuel equal to
the buffer length suffices (runF_eq_run below makes this precise). -/
def runF : ℕ → List ℕ → List Parsed × List ℕ
  | 0, buf => ([], buf)
  | fuel + 1, buf =>
    if buf.length < 4 then ([], buf)
    else iterCoreWith (runF fuel) (buf.dropWhile (fun b => decide (b ≠ SYNC)))

/-- the parse loop on a buffer: fuel instantiated with the buffer length. -/
def run (buf : List ℕ) : List Parsed × List ℕ := runF buf.length buf

/-- ThinkGearDecoder.parseStream: appends the new chunk to the internal buffer
and runs the parse loop; returns the emitted packets and the new buffer. -/
def parseStream (buffer newPayload : List ℕ) : List Parsed × List ℕ :=
  run (buffer ++ newPayload)

/-- one loop iteration with the loop itself as the continuation. -/
def iterCore : List ℕ → List Parsed × List ℕ := iterCoreWith run

theorem runF_short (f : ℕ) (buf : List ℕ) (h : buf.length < 4) :
    runF f buf = ([], buf) := by
  cases f with
  | zero => rfl
  | succ f => simp [runF, h]

theorem run_short (buf : List ℕ) (h : buf.length < 4) : run buf = ([], buf) :=
  runF_short _ _ h

theorem length_dropWhile_le (p : ℕ → Bool) (l : List ℕ) :
    (l.dropWhile p).length ≤ l.length :=
  (List.dropWhile_sublist p).length_le

theorem iterCoreWith_congr (r1 r2 : List ℕ → List Parsed × List ℕ)
    (c : List ℕ) (h : ∀ X : List ℕ, X.length < c.length → r1 X = r2 X) :
    iterCoreWith r1 c = iterCoreWith r2 c := by
  simp only [iterCoreWith]
  split_ifs with h2 hs h3 hTot hchk hemit
  · rfl
  · exact h _ (by rw [List.length_tail]; omega)
  · rfl
  · rfl
  · exact h _ (by rw [List.length_drop]; omega)
  · rw [h (c.drop (c.getD 2 0 + 4)) (by rw [List.length_drop]; omega)]
  · rw [h (c.drop (c.getD 2 0 + 4)) (by rw [List.length_drop]; omega)]

theorem runF_eq_run (f : ℕ) (buf : List ℕ) (h : buf.length ≤ f) :
    runF f buf = run buf := by
  induction f using Nat.strong_induction_on generalizing buf with
  | _ f ih =>
    by_cases h4 : buf.length < 4
    · rw [runF_short _ _ h4, run_short _ h4]
    · obtain ⟨f', rfl⟩ : ∃ f', f = f' + 1 := ⟨f - 1, by omega⟩
      obtain ⟨m, hm⟩ : ∃ m, buf.length = m + 1 := ⟨buf.length - 1, by omega⟩
      have hdw := length_dropWhile_le (fun b => decide (b ≠ SYNC)) buf
      have step1 : runF (f' + 1) buf =
          iterCoreWith run (buf.dropWhile (fun b => decide (b ≠ SYNC))) := by
        rw [runF, if_neg h4]
        exact iterCoreWith_congr _ _ _
          (fun X hX => ih f' (Nat.lt_succ_self _) X (by omega))
      have step2 : run buf =
          iterCoreWith run (buf.dropWhile (fun b => decide (b ≠ SYNC))) := by
        rw [run, hm, runF, if_neg h4]
        exact iterCoreWith_congr _ _ _
          (fun X hX => ih m (by omega) X (by omega))
      rw [step1, step2]

theorem run_body (buf : List ℕ) (h : ¬ buf.length < 4) :
    run buf = iterCore (buf.dropWhile (fun b => decide (b ≠ SYNC))) := by
  obtain ⟨m, hm⟩ : ∃ m, buf.length = m + 1 := ⟨buf.length - 1, by omega⟩
  have hdw := length_dropWhile_le (fun b => decide (b ≠ SYNC)) buf
  rw [run, hm, runF, if_neg h, iterCore]
  exact iterCoreWith_congr _ _ _
    (fun X hX => runF_eq_run m X (by omega))

theorem iterCore_small (c : List ℕ) (h : c.length ≤ 3) : (iterCore c).1 = [] := by
  simp only [iterCore, iterCoreWith]
  split_ifs with h2 hs h3 hTot hchk hemit
  · rfl
  · rw [run_short _ (by rw [List.length_tail]; omega)]
  · rfl
  · rfl
  · omega
  · omega
  · omega

/-- the head of the buffer after the sync search, when it exists, is SYNC. -/
theorem dropWhile_head_sync (l : List ℕ) (x : ℕ) (t : List ℕ)
    (h : l.dropWhile (fun b => decide (b ≠ SYNC)) = x :: t) : x = SYNC := by
  induction l with
  | nil => simp at h
  | cons a l ih =>
    rw [List.dropWhile_cons] at h
    by_cases ha : a = SYNC
    · rw [if_neg (by simp [ha])] at h
      rw [← (List.cons.injEq a l x t).mp h |>.1, ha]
    · rw [if_pos (by simp [ha])] at h
      exact ih h

/-- a buffer whose head is SYNC is untouched by the sync search. -/
theorem dropWhile_sync_head (t : List ℕ) :
    (SYNC :: t).dropWhile (fun b => decide (b ≠ SYNC)) = SYNC :: t := by
  rw [List.dropWhile_cons, if_neg (by simp)]

/-- the parse loop agrees with a single loop iteration on any buffer whose
sync search is already done (its head is SYNC), as far as emitted packets are
concerned. -/
theorem iterCore_packets (t : List ℕ) :
    (iterCore (SYNC :: t)).1 = (run (SYNC :: t)).1 := by
  by_cases h4 : (SYNC :: t).length < 4
  · rw [run_short _ h4, iterCore_small _ (by omega)]
  · rw [run_body _ h4, dropWhile_sync_head]

theorem iterCore_dropWhile_packets (b : List ℕ) :
    (iterCore (b.dropWhile (fun v => decide (v ≠ SYNC)))).1 = (run b).1 := by
  by_cases h4 : b.length < 4
  · rw [run_short _ h4,
      iterCore_small _ (le_trans (length_dropWhile_le _ _) (by omega))]
  · rw [run_body _ h4]

/-- when one iteration on a synced buffer is a break (returns the buffer
unchanged), the parse loop on that buffer extended by b behaves as the loop
restarted on the unchanged buffer followed by b. -/
theorem run_append_break (t b : List ℕ)
    (hiter : iterCore (SYNC :: t) = ([], SYNC :: t)) :
    (iterCore (SYNC :: (t ++ b))).1 =
      (iterCore (SYNC :: t)).1 ++ (run ((iterCore (SYNC :: t)).2 ++ b)).1 := by
  rw [hiter]
  simpa using iterCore_packets (t ++ b)

/-- key compositionality property of the parse loop: running it on a ++ b
emits first the packets of running it on a, then the packets of running it on
the remainder of a extended by b.  This is what makes incremental feeding
equivalent to one-shot feeding. -/
theorem run_append_aux : ∀ n : ℕ, ∀ a b : List ℕ, a.length ≤ n →
    (run (a ++ b)).1 = (run a).1 ++ (run ((run a).2 ++ b)).1 := by
  intro n
  induction n using Nat.strong_induction_on with
  | _ n ih =>
    intro a b ha
    by_cases h4 : a.length < 4
    · rw [run_short a h4]
      simp
    · have h4ab : ¬ (a ++ b).length < 4 := by
        rw [List.length_append]; omega
      rw [run_body a h4, run_body _ h4ab]
      cases hc : a.dropWhile (fun v => decide (v ≠ SYNC)) with
      | nil =>
        have hab : (a ++ b).dropWhile (fun v => decide (v ≠ SYNC)) =
            b.dropWhile (fun v => decide (v ≠ SYNC)) := by
          rw [List.dropWhile_append, hc]
          simp
        rw [hab]
        have hnil : iterCore ([] : List ℕ) = ([], ([] : List ℕ)) := by
          simp [iterCore, iterCoreWith]
        rw [hnil]
        simpa using iterCore_dropWhile_packets b
      | cons x t =>
        obtain rfl : x = SYNC := dropWhile_head_sync a x t hc
        have hab : (a ++ b).dropWhile (fun v => decide (v ≠ SYNC)) =
            SYNC :: (t ++ b) := by
          rw [List.dropWhile_append, hc]
          simp
        rw [hab]
        have hlen : t.length + 1 ≤ a.length := by
          have hs := length_dropWhile_le (fun v => decide (v ≠ SYNC)) a
          rw [hc] at hs
          simpa using hs
        by_cases ht0 : t = []
        · subst ht0
          exact run_append_break [] b (by simp [iterCore, iterCoreWith])
        · have htpos : 0 < t.length := List.length_pos.mpr ht0
          by_cases hu : t.getD 0 0 ≠ SYNC
          · -- stray single sync byte: shift one byte and continue
            have hiter : iterCore (SYNC :: t) = run t := by
              simp only [iterCore, iterCoreWith, List.getD_cons_succ,
                List.length_cons, List.tail_cons]
              rw [if_neg (by omega), if_pos hu]
            have hiterD : iterCore (SYNC :: (t ++ b)) = run (t ++ b) := by
              simp only [iterCore, iterCoreWith, List.getD_cons_succ,
                List.length_cons, List.tail_cons]
              rw [if_neg (by rw [List.length_append]; omega),
                if_pos (by rwa [List.getD_append _ _ _ _ htpos])]
            rw [hiterD, hiter]
            exact ih t.length (by omega) t b le_rfl
          · by_cases ht2 : t.length < 2
            · -- two sync bytes but no length byte yet: break
              refine run_append_break t b ?_
              simp only [iterCore, iterCoreWith, List.getD_cons_succ,
                List.length_cons]
              rw [if_neg (by omega), if_neg hu, if_pos (by omega)]
            · by_cases htot : t.length + 1 < t.getD 1 0 + 4
              · -- complete header but incomplete frame: break
                refine run_append_break t b ?_
                simp only [iterCore, iterCoreWith, List.getD_cons_succ,
                  List.length_cons]
                rw [if_neg (by omega), if_neg hu, if_neg (by omega),
                  if_pos (by omega)]
              · -- a complete frame is present inside SYNC :: t
                have harith : t.getD 1 0 + 4 - 1 = t.getD 1 0 + 3 := by omega
                have hiter : iterCore (SYNC :: t) =
                    if checksumOf ((t.drop 2).take (t.getD 1 0)) ≠
                        t.getD (t.getD 1 0 + 2) 0 then
                      run (t.drop (t.getD 1 0 + 3))
                    else
                      (if emitP (decodePayload ((t.drop 2).take (t.getD 1 0)))
                        then decodePayload ((t.drop 2).take (t.getD 1 0)) ::
                          (run (t.drop (t.getD 1 0 + 3))).1
                        else (run (t.drop (t.getD 1 0 + 3))).1,
                       (run (t.drop (t.getD 1 0 + 3))).2) := by
                  simp only [iterCore, iterCoreWith, List.getD_cons_succ,
                    List.length_cons, List.drop_succ_cons, harith]
                  rw [if_neg (by omega), if_neg hu, if_neg (by omega),
                    if_neg (by omega)]
                have hpD : ((t ++ b).drop 2).take (t.getD 1 0) =
                    (t.drop 2).take (t.getD 1 0) := by
                  rw [List.drop_append_of_le_length (by omega),
                    List.take_append_of_le_length (by rw [List.length_drop]; omega)]
                have hrD : (t ++ b).getD (t.getD 1 0 + 2) 0 =
                    t.getD (t.getD 1 0 + 2) 0 :=
                  List.getD_append _ _ _ _ (by omega)
                have hrestD : (t ++ b).drop (t.getD 1 0 + 3) =
                    t.drop (t.getD 1 0 + 3) ++ b :=
                  List.drop_append_of_le_length (by omega)
                have hgD : (t ++ b).getD 1 0 = t.getD 1 0 :=
                  List.getD_append _ _ _ _ (by omega)
                have hg0D : (t ++ b).getD 0 0 = t.getD 0 0 :=
                  List.getD_append _ _ _ _ htpos
                have hiterD : iterCore (SYNC :: (t ++ b)) =
                    if checksumOf ((t.drop 2).take (t.getD 1 0)) ≠
                        t.getD (t.getD 1 0 + 2) 0 then
                      run (t.drop (t.getD 1 0 + 3) ++ b)
                    else
                      (if emitP (decodePayload ((t.drop 2).take (t.getD 1 0)))
                        then decodePayload ((t.drop 2).take (t.getD 1 0)) ::
                          (run (t.drop (t.getD 1 0 + 3) ++ b)).1
                        else (run (t.drop (t.getD 1 0 + 3) ++ b)).1,
                       (run (t.drop (t.getD 1 0 + 3) ++ b)).2) := by
                  simp only [iterCore, iterCoreWith, List.getD_cons_succ,
                    List.length_cons, List.drop_succ_cons, List.length_append,
                    harith, hgD, hg0D, hpD, hrD, hrestD]
                  rw [if_neg (by omega), if_neg hu, if_neg (by omega),
                    if_neg (by omega)]
                rw [hiterD, hiter]
                have hdrop : (t.drop (t.getD 1 0 + 3)).length < n := by
                  rw [List.length_drop]; omega
                by_cases hchk : checksumOf ((t.drop 2).take (t.getD 1 0)) ≠
                    t.getD (t.getD 1 0 + 2) 0
                · rw [if_pos hchk, if_pos hchk]
                  exact ih _ hdrop _ b le_rfl
                · rw [if_neg hchk, if_neg hchk]
                  have hrec := ih _ hdrop (t.drop (t.getD 1 0 + 3)) b le_rfl
                  simp only [hrec]
                  cases hemit : emitP (decodePayload ((t.drop 2).take (t.getD 1 0))) <;>
                    simp [hemit]

theorem run_append (a b : List ℕ) :
    (run (a ++ b)).1 = (run a).1 ++ (run ((run a).2 ++ b)).1 :=
  run_append_aux a.length a b le_rfl

/-- sequentially feeding a list of chunks from a given buffer state,
collecting all emitted packets in order: repeated ThinkGearDecoder.parseStream
calls with the internal buffer threaded through. -/
def feedList : List ℕ → List (List ℕ) → List Parsed
  | _, [] => []
  | buf, d :: rest => (run (buf ++ d)).1 ++ feedList (run (buf ++ d)).2 rest

theorem feedList_eq : ∀ (chunks : List (List ℕ)) (buf : List ℕ),
    (run buf).1 ++ feedList (run buf).2 chunks = (run (buf ++ chunks.flatten)).1 := by
  intro chunks
  induction chunks with
  | nil => intro buf; simp [feedList]
  | cons d cs ih =>
    intro buf
    have hstep := run_append buf (d ++ cs.flatten)
    calc (run buf).1 ++ feedList (run buf).2 (d :: cs)
        = (run buf).1 ++ ((run ((run buf).2 ++ d)).1 ++
            feedList (run ((run buf).2 ++ d)).2 cs) := rfl
      _ = (run buf).1 ++ (run (((run buf).2 ++ d) ++ cs.flatten)).1 := by
            rw [ih ((run buf).2 ++ d)]
      _ = (run (buf ++ (d :: cs).flatten)).1 := by
            rw [List.append_assoc, ← hstep, List.flatten_cons]

/-- one loop iteration on a synced buffer holding a complete frame candidate:
two sync bytes, the length byte L, and at least L + 1 further bytes (payload
plus checksum byte). -/
theorem iterCore_frame (L : ℕ) (M : List ℕ) (hM : L + 1 ≤ M.length) :
    iterCore (SYNC :: SYNC :: L :: M) =
      if checksumOf (M.take L) ≠ M.getD L 0 then run (M.drop (L + 1))
      else
        (if emitP (decodePayload (M.take L))
          then decodePayload (M.take L) :: (run (M.drop (L + 1))).1
          else (run (M.drop (L + 1))).1,
         (run (M.drop (L + 1))).2) := by
  have e1 : (SYNC :: SYNC :: L :: M).getD 1 0 = SYNC := rfl
  have e2 : (SYNC :: SYNC :: L :: M).getD 2 0 = L := rfl
  have e3 : (SYNC :: SYNC :: L :: M).drop 3 = M := rfl
  have e4 : (SYNC :: SYNC :: L :: M).getD (L + 4 - 1) 0 = M.getD L 0 := by
    rw [show L + 4 - 1 = (L + 2) + 1 from by omega, List.getD_cons_succ,
      show L + 2 = (L + 1) + 1 from by omega, List.getD_cons_succ,
      List.getD_cons_succ]
  have e5 : (SYNC :: SYNC :: L :: M).drop (L + 4) = M.drop (L + 1) := by
    rw [show L + 4 = ((L + 1) + 2) + 1 from by omega, List.drop_succ_cons,
      show (L + 1) + 2 = ((L + 1) + 1) + 1 from by omega, List.drop_succ_cons,
      List.drop_succ_cons]
  simp only [iterCore, iterCoreWith]
  rw [e2, e1, e3, e4, e5]
  rw [if_neg (by simp only [List.length_cons]; omega),
    if_neg (by simp),
    if_neg (by simp only [List.length_cons]; omega),
    if_neg (by simp only [List.length_cons]; omega)]

/-- behaviour of the parse loop on a buffer starting with a complete frame
candidate (sync, sync, length byte, payload of that length, checksum byte):
the whole frame is sliced out of the buffer in both the valid and the invalid
case; on a checksum failure nothing is emitted, on success the decoded packet
is emitted exactly when it passes the conditional output filter. -/
theorem run_frame (payload : List ℕ) (chk : ℕ) (rest : List ℕ) :
    run ([SYNC, SYNC, payload.length] ++ payload ++ chk :: rest) =
      if checksumOf payload ≠ chk then run rest
      else
        (if emitP (decodePayload payload)
          then decodePayload payload :: (run rest).1 else (run rest).1,
         (run rest).2) := by
  have h4 : ¬ ([SYNC, SYNC, payload.length] ++ payload ++ chk :: rest).length < 4 := by
    simp only [List.length_append, List.length_cons, List.length_nil]
    omega
  have hsplit : [SYNC, SYNC, payload.length] ++ payload ++ chk :: rest =
      SYNC :: SYNC :: payload.length :: (payload ++ chk :: rest) := by
    simp
  rw [run_body _ h4, hsplit, dropWhile_sync_head]
  rw [iterCore_frame _ _ (by simp only [List.length_append, List.length_cons]; omega)]
  rw [List.take_left' rfl]
  rw [show (payload ++ chk :: rest).getD payload.length 0 = chk from by
    rw [List.getD_append_right _ _ _ _ le_rfl]
    simp]
  rw [show (payload ++ chk :: rest).drop (payload.length + 1) = rest from by
    rw [show payload ++ chk :: rest = (payload ++ [chk]) ++ rest from by simp,
      List.drop_left' (by simp)]]

/-- bytes read via getD from a buffer of genuine bytes are below 256. -/
theorem getD_lt_256 (c : List ℕ) (i : ℕ) (h : ∀ x ∈ c, x < 256) :
    c.getD i 0 < 256 := by
  by_cases hi : i < c.length
  · rw [List.getD_eq_getElem c 0 hi]
    exact h _ (List.getElem_mem hi)
  · rw [List.getD_eq_default c 0 (by omega)]
    omega

/-- structural bound on the remaining buffer after the parse loop: every exit
path of the loop leaves at most 258 bytes (a partial frame is shorter than
its declared total length, which is at most 3 + 255 + 1 = 259). -/
theorem run_buffer_bound : ∀ n : ℕ, ∀ buf : List ℕ, buf.length ≤ n →
    (∀ x ∈ buf, x < 256) → ((run buf).2).length ≤ 258 := by
  intro n
  induction n using Nat.strong_induction_on with
  | _ n ih =>
    intro buf hn hbytes
    by_cases h4 : buf.length < 4
    · rw [run_short _ h4]
      simpa using by omega
    · rw [run_body _ h4]
      have hsub : (buf.dropWhile (fun v => decide (v ≠ SYNC))).Sublist buf :=
        List.dropWhile_sublist _
      have hcb : ∀ x ∈ buf.dropWhile (fun v => decide (v ≠ SYNC)), x < 256 :=
        fun x hx => hbytes x (hsub.subset hx)
      have hcl : (buf.dropWhile (fun v => decide (v ≠ SYNC))).length ≤ buf.length :=
        hsub.length_le
      set c := buf.dropWhile (fun v => decide (v ≠ SYNC)) with hcdef
      simp only [iterCore, iterCoreWith]
      split_ifs with h2 hs h3 hTot hchk hemit
      · simpa using by omega
      · exact ih c.tail.length (by rw [List.length_tail]; omega) c.tail le_rfl
          (fun x hx => hcb x ((List.tail_sublist c).subset hx))
      · simpa using by omega
      · have := getD_lt_256 c 2 hcb
        simpa using by omega
      · exact ih (c.drop (c.getD 2 0 + 4)).length (by rw [List.length_drop]; omega)
          _ le_rfl (fun x hx => hcb x ((List.drop_sublist _ _).subset hx))
      · exact ih (c.drop (c.getD 2 0 + 4)).length (by rw [List.length_drop]; omega)
          _ le_rfl (fun x hx => hcb x ((List.drop_sublist _ _).subset hx))
      · exact ih (c.drop (c.getD 2 0 + 4)).length (by rw [List.length_drop]; omega)
          _ le_rfl (fun x hx => hcb x ((List.drop_sublist _ _).subset hx))

/-- Claim C1 is false on the code: for a buffered frame candidate whose
computed checksum does not match, the decoder does NOT consume exactly one
byte.  The claim, formalised as run buf = run (buf.drop 1) for every buffer
starting with a complete bad-checksum frame candidate, fails at the concrete
buffer AA AA 06 AA AA 02 02 05 F8 00: the code consumes the whole 10-byte
claimed frame and emits nothing, while advancing a single byte would have
re-synchronised onto the embedded valid frame AA AA 02 02 05 F8 and emitted
the packet with poorSignal = 5. -/
theorem C1_counterexample :
    ¬ (∀ (payload : List ℕ) (chk : ℕ) (rest : List ℕ),
        checksumOf payload ≠ chk →
        run ([SYNC, SYNC, payload.length] ++ payload ++ chk :: rest) =
          run (([SYNC, SYNC, payload.length] ++ payload ++ chk :: rest).drop 1)) := by
  intro h
  have h1 := h [0xAA, 0xAA, 0x02, 0x02, 0x05, 0xF8] 0x00 [] (by decide)
  revert h1
  decide

/-- Claim C1 as amended: for every buffered frame candidate (two sync bytes, a
length byte, a complete payload of that length, and a checksum byte) whose
computed checksum 0xFF - (sum(payload) & 0xFF) does not equal the received
checksum byte, the decoder emits no packet for that frame and consumes the
whole claimed frame (3 + LEN + 1 bytes), resuming the sync search after it. -/
theorem C1_checksum_fail_skips_frame (payload : List ℕ) (chk : ℕ)
    (rest : List ℕ) (hbad : checksumOf payload ≠ chk) :
    run ([SYNC, SYNC, payload.length] ++ payload ++ chk :: rest) = run rest := by
  rw [run_frame, if_pos hbad]

/-- witness for C1_checksum_fail_skips_frame at the concrete corrupted frame
AA AA 02 02 05 FA (valid checksum would be F8). -/
theorem C1_checksum_fail_skips_frame_witness :
    run [0xAA, 0xAA, 0x02, 0x02, 0x05, 0xFA] = ([], []) :=
  (C1_checksum_fail_skips_frame [0x02, 0x05] 0xFA [] (by decide)).trans (by decide)

/-- Claim C2 is false on the code: the frame AA AA 04 80 02 01 2C 50 has a
valid checksum (0xFF - 0xAF = 0x50) and its payload decodes to the recognized
field rawEEG = 300, yet the decoder emits no packet for it: the conditional
output filter drops packets whose only field is rawEEG. -/
theorem C2_counterexample :
    checksumOf [0x80, 0x02, 0x01, 0x2C] = 0x50 ∧
    decodePayload [0x80, 0x02, 0x01, 0x2C] = { rawEEG := some 300 } ∧
    (run [0xAA, 0xAA, 0x04, 0x80, 0x02, 0x01, 0x2C, 0x50]).1 = [] ∧
    ¬ (run [0xAA, 0xAA, 0x04, 0x80, 0x02, 0x01, 0x2C, 0x50]).1 =
        [{ rawEEG := some 300 }] := by decide

/-- Claim C2 as amended: a checksum-valid frame is emitted if and only if its
decoded fields pass the output filter (attention, meditation or eegBands
present, or poorSignal strictly positive); the payload 80 02 01 2C decodes
internally to rawEEG = 300 but the resulting packet is filtered out, so a
frame carrying rawEEG alone is not emitted. -/
theorem C2_emission_filter (payload : List ℕ) (chk : ℕ) (rest : List ℕ)
    (hok : checksumOf payload = chk) :
    (run ([SYNC, SYNC, payload.length] ++ payload ++ chk :: rest)).1 =
      (if emitP (decodePayload payload)
        then decodePayload payload :: (run rest).1 else (run rest).1) ∧
    decodePayload [0x80, 0x02, 0x01, 0x2C] = { rawEEG := some 300 } ∧
    emitP { rawEEG := some (300 : ℤ) } = false := by
  refine ⟨?_, by decide, by decide⟩
  rw [run_frame, if_neg (by simp [hok])]

/-- witness for C2_emission_filter at the valid poorSignal frame
AA AA 02 02 05 F8, whose packet does pass the filter. -/
theorem C2_emission_filter_witness :
    (run [0xAA, 0xAA, 0x02, 0x02, 0x05, 0xF8]).1 = [{ poorSignal := some 5 }] :=
  ((C2_emission_filter [0x02, 0x05] 0xF8 [] (by decide)).1).trans (by decide)

/-- Claim C7: feeding a byte sequence in one call from an empty buffer emits
the same ordered packet sequence as feeding any partition of it into
consecutive chunks across multiple calls.  Proved for every chunk list (not
only those flattening to valid multi-frame sequences), which implies the
claim. -/
theorem C7_incremental_parse (chunks : List (List ℕ)) :
    feedList [] chunks = (run chunks.flatten).1 := by
  have h := feedList_eq chunks []
  rw [run_short [] (by simp)] at h
  simpa using h

/-- Claim C8 is false on the code: the decoder sums ALL payload bytes
(including the code byte 0x02), so the checksum of payload 02 05 is
0xFF - 7 = 0xF8, not 0xFA as the spec computes; the frame AA AA 02 02 05 FA
therefore fails checksum validation and emits no packet. -/
theorem C8_counterexample :
    ¬ (run [0xAA, 0xAA, 0x02, 0x02, 0x05, 0xFA]).1 =
        [{ poorSignal := some 5 }] := by decide

/-- Claim C8 as amended: the checksum of payload 02 05 is
0xFF - (0x02 + 0x05) = 0xF8; feeding AA AA 02 02 05 F8 from an empty buffer
emits exactly one packet whose only field is poorSignal = 5, while the
spec's frame AA AA 02 02 05 FA is discarded whole with no packet. -/
theorem C8_amended :
    checksumOf [0x02, 0x05] = 0xF8 ∧
    run [0xAA, 0xAA, 0x02, 0x02, 0x05, 0xF8] = ([{ poorSignal := some 5 }], []) ∧
    run [0xAA, 0xAA, 0x02, 0x02, 0x05, 0xFA] = ([], []) := by decide

/-- Claim C9: a checksum-valid frame whose only recognized field is
poorSignal with value 0 is silently dropped: the output filter requires
attention, meditation or eegBands to be present, or poorSignal strictly
greater than 0. -/
theorem C9_poorSignal_zero_filtered (payload : List ℕ) (chk : ℕ)
    (rest : List ℕ) (hok : checksumOf payload = chk)
    (hdec : decodePayload payload = { poorSignal := some 0 }) :
    run ([SYNC, SYNC, payload.length] ++ payload ++ chk :: rest) = run rest := by
  rw [run_frame, if_neg (by simp [hok]), hdec]
  rfl

/-- witness for C9_poorSignal_zero_filtered at the frame AA AA 02 02 00 FD
(poorSignal = 0, checksum 0xFF - 2 = 0xFD). -/
theorem C9_poorSignal_zero_filtered_witness :
    run [0xAA, 0xAA, 0x02, 0x02, 0x00, 0xFD] = ([], []) :=
  (C9_poorSignal_zero_filtered [0x02, 0x00] 0xFD [] (by decide) (by decide)).trans
    (by decide)

/-- Claim C10: after every call to parseStream on genuine bytes (values below
256), the internal undecoded-byte buffer holds at most 258 bytes, strictly
fewer than the maximum frame size 2 + 1 + 255 + 1 = 259: every exit path of
the parse loop either consumed enough bytes or stopped with a partial frame
shorter than its declared total length. -/
theorem C10_buffer_bound (buffer newPayload : List ℕ)
    (h : ∀ x ∈ buffer ++ newPayload, x < 256) :
    ((parseStream buffer newPayload).2).length ≤ 258 :=
  run_buffer_bound (buffer ++ newPayload).length _ le_rfl h

/-- witness for C10_buffer_bound at a concrete feed. -/
theorem C10_buffer_bound_witness :
    ((parseStream [] [0xAA, 0xAA, 0xFF, 0x01, 0x02]).2).length ≤ 258 :=
  C10_buffer_bound [] [0xAA, 0xAA, 0xFF, 0x01, 0x02] (by decide)

end ThinkGearDecoder

/-!
Spectral engine model: the EEGProcessor class (class EEGProcessor of the
repository, imported by src/mobile/app/iaf-calibration.jsx as
../utils/EEGProcessor).  Samples and spectra are modelled over the rationals.
The discrete Fourier transform is performed by the external library fft.js,
which is not part of this repository; it is abstracted as a function
parameter tf from the preprocessed signal to the interleaved
(real, imaginary) output array, and likewise Math.cos and Math.PI of the
JavaScript runtime are abstracted as parameters cosq and piq.  None of the
claims below depend on the values these parameters produce.  Where the
JavaScript code would read an undefined array slot (yielding NaN), the model
reads a default 0; no claim depends on those slots either.
-/

namespace EEGProcessor

/-- a PSD result: parallel lists of bin frequencies and bin powers, as
returned by EEGProcessor.computePSD. -/
structure Spectrum where
  frequencies : List ℚ
  psd : List ℚ
deriving DecidableEq

/-- EEGProcessor.detrend: subtract the arithmetic mean from every sample. -/
def detrend (signal : List ℚ) : List ℚ :=
  signal.map (fun x => x - signal.sum / (signal.length : ℚ))

/-- EEGProcessor.notchFilter: comb filter with period round(sampleRate /
notchFreq); sample i is replaced by signal[i] - signal[i - period] for
i at or above the period, earlier samples pass through.  Math.round agrees
with Mathlib round (half rounds up) on the values involved. -/
def notchFilter (signal : List ℚ) (notchFreq sampleRate : ℚ) : List ℚ :=
  signal.mapIdx (fun i x =>
    if (round (sampleRate / notchFreq)).toNat ≤ i
      then x - signal.getD (i - (round (sampleRate / notchFreq)).toNat) 0
      else x)

/-- EEGProcessor.applyHammingWindow: multiply sample n by
0.54 - 0.46 * cos(2 pi n / (N - 1)). -/
def applyHammingWindow (cosq : ℚ → ℚ) (piq : ℚ) (signal : List ℚ) : List ℚ :=
  signal.mapIdx (fun n x =>
    x * (0.54 - 0.46 * cosq (2 * piq * (n : ℚ) / ((signal.length : ℚ) - 1))))

/-- EEGProcessor.computePSD: detrend, 50 Hz notch filter, Hamming window,
transform, then power (re^2 + im^2) / N^2 and frequency k * sampleRate / N
for the non-negative-frequency bins.  The JavaScript loop bound i < N/2 with
integer i and IEEE division admits ceil(N/2) = (N+1)/2 iterations (equal to
N/2 for the even lengths in actual use). -/
def computePSD (tf : List ℚ → List ℚ) (cosq : ℚ → ℚ) (piq : ℚ)
    (sampleRate : ℚ) (signal : List ℚ) : Spectrum :=
  let N := signal.length
  let processed := applyHammingWindow cosq piq
    (notchFilter (detrend signal) 50 sampleRate)
  let output := tf processed
  let psd := (List.range ((N + 1) / 2)).map (fun i =>
    (output.getD (2 * i) 0 * output.getD (2 * i) 0 +
      output.getD (2 * i + 1) 0 * output.getD (2 * i + 1) 0) /
      ((N : ℚ) * (N : ℚ)))
  let frequencies := (List.range ((N + 1) / 2)).map
    (fun (i : ℕ) => (i : ℚ) * sampleRate / (N : ℚ))
  ⟨frequencies, psd⟩

/-- the 8 canonical bands, in the fixed order of the source table. -/
inductive BandName
  | Delta | Theta | AlphaLow | AlphaHigh | BetaLow | BetaHigh | GammaLow | GammaHigh
deriving DecidableEq

/-- canonical closed frequency range of each band (EEGProcessor.
extractBandPowers band table). -/
def bandRange : BandName → ℚ × ℚ
  | .Delta => (0.5, 4)
  | .Theta => (4, 8)
  | .AlphaLow => (8, 10)
  | .AlphaHigh => (10, 13)
  | .BetaLow => (13, 17)
  | .BetaHigh => (17, 30)
  | .GammaLow => (30, 40)
  | .GammaHigh => (40, 50)

/-- EEGProcessor.extractBandPowers for one band: sum psd[i] over the indices
whose frequency lies in the closed band range, then divide by the number of
bins in range when that number is positive (otherwise the accumulated sum,
which is 0, is returned unchanged). -/
def extractBandPowers (frequencies psd : List ℚ) (b : BandName) : ℚ :=
  let s := (((List.range frequencies.length).filter (fun i =>
    decide ((bandRange b).1 ≤ frequencies.getD i 0 ∧
      frequencies.getD i 0 ≤ (bandRange b).2))).map (fun i => psd.getD i 0)).sum
  let numBins := (frequencies.filter (fun x =>
    decide ((bandRange b).1 ≤ x ∧ x ≤ (bandRange b).2))).length
  if 0 < numBins then s / (numBins : ℚ) else s

/-- Modelled from the spec: the Welch-style averaged periodogram that section
4.2 prescribes for calibration-sized buffers (the source has no such
routine): partition the buffer into consecutive windows of length W with 50
percent overlap, run computePSD on each window, and average power bin by bin
over all windows; the frequency axis is the one of a single W-sample
window. -/
def welchPSD_spec (tf : List ℚ → List ℚ) (cosq : ℚ → ℚ) (piq : ℚ)
    (sampleRate : ℚ) (W : ℕ) (buffer : List ℚ) : Spectrum :=
  let step := W / 2
  let numWindows := (buffer.length - W) / step + 1
  let specs := (List.range numWindows).map (fun j =>
    computePSD tf cosq piq sampleRate ((buffer.drop (j * step)).take W))
  let frequencies := (List.range (W / 2)).map
    (fun (k : ℕ) => (k : ℚ) * sampleRate / (W : ℚ))
  let psd := (List.range (W / 2)).map (fun k =>
    (specs.map (fun sp => sp.psd.getD k 0)).sum / (numWindows : ℚ))
  ⟨frequencies, psd⟩

/-- identity stand-in for the abstracted transform parameter, used to
instantiate counterexamples and witnesses; the facts proved about it do not
depend on the transform values. -/
def tfId : List ℚ → List ℚ := fun l => l

/-- constant stand-in for the abstracted cosine parameter. -/
def cosZero : ℚ → ℚ := fun _ => 0

end EEGProcessor

/-!
IAF calibrator model: class CRBCalculator of src/mobile/app/iaf-calibration.jsx.
-/

namespace CRBCalculator

open EEGProcessor

/-- CRBCalculator.calculatePSD: fewer than 512 samples is a surfaced failure
(null, modelled as none); otherwise EEGProcessor.computePSD is invoked once
on the whole buffer. -/
def calculatePSD (tf : List ℚ → List ℚ) (cosq : ℚ → ℚ) (piq : ℚ)
    (sampleRate : ℚ) (eegDataArray : List ℚ) : Option Spectrum :=
  if eegDataArray.length < 512 then none
  else some (computePSD tf cosq piq sampleRate eegDataArray)

/-- the result object of CRBCalculator.calculateIAF (frequency, power,
desynchronization; the echoed restPSD and taskPSD fields are omitted). -/
structure IAFResult where
  frequency : ℚ
  power : ℚ
  desynchronization : ℚ
deriving DecidableEq

/-- Array.prototype.findIndex, with -1 modelled as none: index of the first
element satisfying the predicate. -/
def findIndex (p : ℚ → Bool) : List ℚ → Option ℕ
  | [] => none
  | x :: xs => if p x then some 0 else (findIndex p xs).map (· + 1)

/-- the body of the selection loop of CRBCalculator.calculateIAF (source
lines 48-56): the accumulator holds (maxDesync, iafFrequency, iafPower), none
standing for the initial maxDesync of negative infinity with null frequency
and power.  A bin updates the accumulator when its desynchronization exceeds
the running maximum and its task power is strictly below its rest power. -/
def scanStep (f r t : List ℚ) (i : ℕ) (acc : Option (ℚ × ℚ × ℚ)) :
    Option (ℚ × ℚ × ℚ) :=
  if (match acc with
      | none => true
      | some p => decide (p.1 < r.getD i 0 - t.getD i 0)) &&
      decide (t.getD i 0 < r.getD i 0)
    then some (r.getD i 0 - t.getD i 0, f.getD i 0, r.getD i 0)
    else acc

/-- the selection loop of CRBCalculator.calculateIAF: fold of scanStep over
the scanned indices. -/
def iafScan (f r t : List ℚ) : List ℕ → Option (ℚ × ℚ × ℚ) → Option (ℚ × ℚ × ℚ)
  | [], acc => acc
  | i :: is, acc => iafScan f r t is (scanStep f r t i acc)

/-- CRBCalculator.calculateIAF: scan the bins from the first frequency at or
above 6 Hz up to (excluding) the first frequency above 14 Hz; if either
findIndex fails, or no bin satisfies strict suppression, or the selected
frequency is falsy (0), the result is null (none). -/
def calculateIAF (restPSD taskPSD : Spectrum) : Option IAFResult :=
  match findIndex (fun x => decide (6 ≤ x)) restPSD.frequencies,
        findIndex (fun x => decide (14 < x)) restPSD.frequencies with
  | some startIdx, some endIdx =>
    match iafScan restPSD.frequencies restPSD.psd taskPSD.psd
        (List.range' startIdx (endIdx - startIdx)) none with
    | none => none
    | some (m, fr, pw) => if fr = 0 then none else some ⟨fr, pw, m⟩
  | _, _ => none

end CRBCalculator

namespace CRBCalculator

open EEGProcessor

theorem computePSD_freq_length (tf : List ℚ → List ℚ) (cosq : ℚ → ℚ)
    (piq sampleRate : ℚ) (signal : List ℚ) :
    (computePSD tf cosq piq sampleRate signal).frequencies.length =
      (signal.length + 1) / 2 := by
  simp only [computePSD, List.length_map, List.length_range]

theorem computePSD_psd_length (tf : List ℚ → List ℚ) (cosq : ℚ → ℚ)
    (piq sampleRate : ℚ) (signal : List ℚ) :
    (computePSD tf cosq piq sampleRate signal).psd.length =
      (signal.length + 1) / 2 := by
  simp only [computePSD, List.length_map, List.length_range]

theorem welchPSD_spec_freq_length (tf : List ℚ → List ℚ) (cosq : ℚ → ℚ)
    (piq sampleRate : ℚ) (W : ℕ) (buffer : List ℚ) :
    (welchPSD_spec tf cosq piq sampleRate W buffer).frequencies.length =
      W / 2 := by
  simp only [welchPSD_spec, List.length_map, List.length_range]

/-- Claim C3 is false on the code: the spectrum used for IAF calibration is
not a Welch-style averaged periodogram.  At the 1024-sample all-zero buffer,
calculatePSD returns one all-at-once computePSD of the whole buffer, whose
frequency axis has 512 bins with spacing sampleRate/1024, while the
Welch-style estimate over 512-sample windows has 256 bins with spacing
sampleRate/512; the two spectra differ.  The refutation only uses the
frequency axis, which does not depend on the abstracted transform or cosine
parameters. -/
theorem C3_counterexample :
    ¬ (∀ buffer : List ℚ, 512 ≤ buffer.length →
        calculatePSD tfId cosZero 0 512 buffer =
          some (welchPSD_spec tfId cosZero 0 512 512 buffer)) := by
  intro h
  have h1 := h (List.replicate 1024 0)
    (by simp only [List.length_replicate]; omega)
  rw [calculatePSD,
    if_neg (by simp only [List.length_replicate]; omega)] at h1
  have h4 := Option.some.inj h1
  have h2 := computePSD_freq_length tfId cosZero 0 512 (List.replicate 1024 0)
  have h3 := welchPSD_spec_freq_length tfId cosZero 0 512 512 (List.replicate 1024 0)
  rw [h4, h3, List.length_replicate] at h2
  exact absurd h2 (by decide)

/-- Claim C3 as amended: for every calibration phase buffer of length at
least 512, the spectrum used for IAF calibration is a single all-at-once
computePSD of the entire buffer, with N equal to the full buffer length:
frequencies[k] = k * sampleRate / N for k below ceil(N/2), and as many power
bins; it is not partitioned into 512-sample windows. -/
theorem C3_single_transform (tf : List ℚ → List ℚ) (cosq : ℚ → ℚ)
    (piq sampleRate : ℚ) (data : List ℚ) (h : 512 ≤ data.length) :
    calculatePSD tf cosq piq sampleRate data =
      some (computePSD tf cosq piq sampleRate data) ∧
    (computePSD tf cosq piq sampleRate data).frequencies =
      (List.range ((data.length + 1) / 2)).map
        (fun (k : ℕ) => (k : ℚ) * sampleRate / (data.length : ℚ)) ∧
    (computePSD tf cosq piq sampleRate data).psd.length =
      (data.length + 1) / 2 := by
  refine ⟨?_, rfl, computePSD_psd_length tf cosq piq sampleRate data⟩
  rw [calculatePSD, if_neg (by omega)]

/-- witness for C3_single_transform at a 512-sample buffer with the concrete
stand-in parameters. -/
theorem C3_single_transform_witness :
    calculatePSD tfId cosZero 0 512 (List.replicate 512 0) =
      some (computePSD tfId cosZero 0 512 (List.replicate 512 0)) :=
  (C3_single_transform tfId cosZero 0 512 (List.replicate 512 0)
    (by simp only [List.length_replicate]; omega)).1

/-- Claim C6: an input signal of length strictly below the 512-sample
analysis window makes calculatePSD fail with the surfaced null result
(modelled as none) instead of returning any spectrum. -/
theorem C6_insufficient_samples (tf : List ℚ → List ℚ) (cosq : ℚ → ℚ)
    (piq sampleRate : ℚ) (data : List ℚ) (h : data.length < 512) :
    calculatePSD tf cosq piq sampleRate data = none := by
  rw [calculatePSD, if_pos h]

/-- witness for C6_insufficient_samples at a 511-sample buffer. -/
theorem C6_insufficient_samples_witness :
    calculatePSD tfId cosZero 0 512 (List.replicate 511 0) = none :=
  C6_insufficient_samples tfId cosZero 0 512 (List.replicate 511 0)
    (by simp only [List.length_replicate]; omega)

end CRBCalculator

namespace EEGProcessor

/-- index-based filtering and summation over parallel lists agrees with
filtering the zipped list: the bridge between the source's index loop in
extractBandPowers and the bin-set description of the band mean. -/
theorem filter_zip_aux (pf : ℚ → Bool) (pq : ℚ × ℚ → Bool)
    (hpq : ∀ x y, pq (x, y) = pf x) :
    ∀ fs ps : List ℚ, ps.length = fs.length →
    ((((List.range fs.length).filter (fun i => pf (fs.getD i 0))).map
        (fun i => ps.getD i 0)).sum =
      (((fs.zip ps).filter pq).map Prod.snd).sum) ∧
    ((fs.filter pf).length = ((fs.zip ps).filter pq).length) := by
  intro fs
  induction fs with
  | nil =>
    intro ps h
    simp
  | cons f fs ih =>
    intro ps h
    cases ps with
    | nil => simp at h
    | cons q ps =>
      have hlen : ps.length = fs.length := by simpa using h
      have hsum := (ih ps hlen).1
      have hcount := (ih ps hlen).2
      have hcompP : ((fun i => pf ((f :: fs).getD i 0)) ∘ Nat.succ) =
          (fun i => pf (fs.getD i 0)) := by
        funext i
        simp [Function.comp, List.getD_cons_succ]
      have hcompG : ((fun i => (q :: ps).getD i 0) ∘ Nat.succ) =
          (fun i => ps.getD i 0) := by
        funext i
        simp [Function.comp, List.getD_cons_succ]
      constructor
      · rw [List.length_cons, List.range_succ_eq_map, List.filter_cons,
          List.zip_cons_cons, List.filter_cons, List.filter_map, hcompP,
          hpq f q]
        simp only [List.getD_cons_zero]
        by_cases hpf : pf f = true
        · rw [if_pos hpf, if_pos hpf]
          rw [List.map_cons, List.map_map, hcompG, List.sum_cons,
            List.getD_cons_zero, hsum, List.map_cons, List.sum_cons]
        · rw [if_neg hpf, if_neg hpf]
          rw [List.map_map, hcompG, hsum]
      · rw [List.filter_cons, List.zip_cons_cons, List.filter_cons, hpq f q]
        by_cases hpf : pf f = true
        · rw [if_pos hpf, if_pos hpf, List.length_cons, List.length_cons, hcount]
        · rw [if_neg hpf, if_neg hpf]
          exact hcount

/-- Claim C5: for every spectrum (parallel frequency and power lists of equal
length) with non-negative powers, extractBandPowers returns for each band
exactly the arithmetic mean of the powers over the bins whose frequency lies
in the band's closed range (both endpoints included), exactly 0 for a band
with no matching bin, and never a negative value.  (NaN does not exist over
the rationals; the division-by-zero guard of the source is what keeps the
zero-bin case at exactly 0.) -/
theorem C5_band_powers (frequencies psd : List ℚ)
    (hlen : psd.length = frequencies.length)
    (hpos : ∀ x ∈ psd, 0 ≤ x) (b : BandName) :
    (extractBandPowers frequencies psd b =
      if ((frequencies.zip psd).filter (fun q =>
            decide ((bandRange b).1 ≤ q.1 ∧ q.1 ≤ (bandRange b).2))).length = 0
      then 0
      else (((frequencies.zip psd).filter (fun q =>
              decide ((bandRange b).1 ≤ q.1 ∧ q.1 ≤ (bandRange b).2))).map
            Prod.snd).sum /
          ((((frequencies.zip psd).filter (fun q =>
              decide ((bandRange b).1 ≤ q.1 ∧ q.1 ≤ (bandRange b).2))).length : ℕ) : ℚ)) ∧
    0 ≤ extractBandPowers frequencies psd b := by
  have haux := filter_zip_aux
    (fun x => decide ((bandRange b).1 ≤ x ∧ x ≤ (bandRange b).2))
    (fun q => decide ((bandRange b).1 ≤ q.1 ∧ q.1 ≤ (bandRange b).2))
    (fun x y => rfl) frequencies psd hlen
  have hge : ∀ i : ℕ, 0 ≤ psd.getD i 0 := by
    intro i
    by_cases hi : i < psd.length
    · rw [List.getD_eq_getElem psd 0 hi]
      exact hpos _ (List.getElem_mem hi)
    · rw [List.getD_eq_default psd 0 (by omega)]
  have hs : 0 ≤ (((List.range frequencies.length).filter (fun i =>
      decide ((bandRange b).1 ≤ frequencies.getD i 0 ∧
        frequencies.getD i 0 ≤ (bandRange b).2))).map (fun i => psd.getD i 0)).sum := by
    refine List.sum_nonneg ?_
    intro x hx
    obtain ⟨i, _, rfl⟩ := List.mem_map.mp hx
    exact hge i
  constructor
  · rw [extractBandPowers]
    rw [haux.1, haux.2]
    by_cases hzc : ((frequencies.zip psd).filter (fun q =>
        decide ((bandRange b).1 ≤ q.1 ∧ q.1 ≤ (bandRange b).2))).length = 0
    · rw [if_neg (by omega), if_pos hzc]
      rw [List.length_eq_zero.mp hzc]
      simp
    · rw [if_pos (by omega), if_neg hzc]
  · rw [extractBandPowers]
    by_cases hnb : 0 < (frequencies.filter (fun x =>
        decide ((bandRange b).1 ≤ x ∧ x ≤ (bandRange b).2))).length
    · rw [if_pos hnb]
      exact div_nonneg hs (by positivity)
    · rw [if_neg hnb]
      exact hs

/-- witness for C5_band_powers: spectrum with axis [1, 9] and powers [2, 4];
the AlphaLow band [8, 10] has the single matching bin at 9 Hz with power 4,
so its band power is the mean 4, and it is non-negative. -/
theorem C5_band_powers_witness :
    extractBandPowers [1, 9] [2, 4] BandName.AlphaLow = 4 ∧
    0 ≤ extractBandPowers [1, 9] [2, 4] BandName.AlphaLow :=
  ⟨((C5_band_powers [1, 9] [2, 4] rfl (by decide) BandName.AlphaLow).1).trans
      (by norm_num [bandRange, List.zip, List.zipWith, List.filter_cons]),
    (C5_band_powers [1, 9] [2, 4] rfl (by decide) BandName.AlphaLow).2⟩

end EEGProcessor

namespace CRBCalculator

open EEGProcessor

theorem findIndex_some_spec (p : ℚ → Bool) :
    ∀ (l : List ℚ) (j : ℕ), findIndex p l = some j →
      j < l.length ∧ p (l.getD j 0) = true ∧ ∀ i < j, p (l.getD i 0) = false := by
  intro l
  induction l with
  | nil =>
    intro j h
    simp [findIndex] at h
  | cons x xs ih =>
    intro j h
    simp only [findIndex] at h
    by_cases hpx : p x = true
    · rw [if_pos hpx] at h
      obtain rfl : j = 0 := (Option.some.inj h).symm
      exact ⟨by simp, by simpa using hpx, fun i hi => absurd hi (by omega)⟩
    · rw [if_neg hpx] at h
      obtain ⟨j', hj', rfl⟩ := Option.map_eq_some'.mp h
      obtain ⟨h1, h2, h3⟩ := ih j' hj'
      refine ⟨by simp only [List.length_cons]; omega, by simpa using h2, ?_⟩
      intro i hi
      cases i with
      | zero =>
        rw [List.getD_cons_zero]
        simpa using hpx
      | succ i' =>
        rw [List.getD_cons_succ]
        exact h3 i' (by omega)

theorem findIndex_isSome_of (p : ℚ → Bool) :
    ∀ (l : List ℚ) (i : ℕ), i < l.length → p (l.getD i 0) = true →
      ∃ j, findIndex p l = some j := by
  intro l
  induction l with
  | nil =>
    intro i hi
    simp at hi
  | cons x xs ih =>
    intro i hi hp
    simp only [findIndex]
    by_cases hpx : p x = true
    · exact ⟨0, by rw [if_pos hpx]⟩
    · rw [if_neg hpx]
      cases i with
      | zero =>
        rw [List.getD_cons_zero] at hp
        exact absurd hp hpx
      | succ i' =>
        rw [List.getD_cons_succ] at hp
        obtain ⟨j, hj⟩ := ih i' (by simp only [List.length_cons] at hi; omega) hp
        exact ⟨j + 1, by rw [hj]; rfl⟩

/-- invariant of the selection loop after having scanned the listed indices:
a none accumulator means no scanned bin showed strict suppression; a some
accumulator records the first scanned bin attaining the maximal
desynchronization among suppressed scanned bins, together with that bin's
frequency and rest power. -/
def ScanInv (f r t : List ℚ) (scanned : List ℕ) :
    Option (ℚ × ℚ × ℚ) → Prop
  | none => ∀ i ∈ scanned, ¬ t.getD i 0 < r.getD i 0
  | some (m, fr, pw) =>
      ∃ pre i post, scanned = pre ++ i :: post ∧
        t.getD i 0 < r.getD i 0 ∧
        m = r.getD i 0 - t.getD i 0 ∧ fr = f.getD i 0 ∧ pw = r.getD i 0 ∧
        (∀ j ∈ pre, t.getD j 0 < r.getD j 0 → r.getD j 0 - t.getD j 0 < m) ∧
        (∀ j ∈ post, t.getD j 0 < r.getD j 0 → r.getD j 0 - t.getD j 0 ≤ m)

theorem ScanInv_step (f r t : List ℚ) (scanned : List ℕ) (i : ℕ)
    (acc : Option (ℚ × ℚ × ℚ)) (h : ScanInv f r t scanned acc) :
    ScanInv f r t (scanned ++ [i]) (scanStep f r t i acc) := by
  cases acc with
  | none =>
    rw [scanStep]
    by_cases hc : t.getD i 0 < r.getD i 0
    · rw [if_pos (Bool.and_eq_true_iff.mpr ⟨rfl, decide_eq_true hc⟩)]
      exact ⟨scanned, i, [], by simp, hc, rfl, rfl, rfl,
        fun j hj hcj => absurd hcj (h j hj),
        fun j hj => absurd hj (List.not_mem_nil j)⟩
    · rw [if_neg (fun hcontra =>
        hc (of_decide_eq_true (Bool.and_eq_true_iff.mp hcontra).2))]
      intro j hj
      rcases List.mem_append.mp hj with hj1 | hj2
      · exact h j hj1
      · obtain rfl : j = i := by simpa using hj2
        exact hc
  | some p =>
    obtain ⟨m, fr, pw⟩ := p
    obtain ⟨pre, i0, post, hdec, hci0, hm0, hf0, hp0, hpre, hpost⟩ :
        ∃ pre i0 post, scanned = pre ++ i0 :: post ∧
          t.getD i0 0 < r.getD i0 0 ∧
          m = r.getD i0 0 - t.getD i0 0 ∧ fr = f.getD i0 0 ∧
          pw = r.getD i0 0 ∧
          (∀ j ∈ pre, t.getD j 0 < r.getD j 0 →
            r.getD j 0 - t.getD j 0 < m) ∧
          (∀ j ∈ post, t.getD j 0 < r.getD j 0 →
            r.getD j 0 - t.getD j 0 ≤ m) := h
    rw [scanStep]
    by_cases hm : m < r.getD i 0 - t.getD i 0
    · by_cases hc : t.getD i 0 < r.getD i 0
      · rw [if_pos (Bool.and_eq_true_iff.mpr
          ⟨decide_eq_true hm, decide_eq_true hc⟩)]
        refine ⟨scanned, i, [], by simp, hc, rfl, rfl, rfl, ?_,
          fun j hj => absurd hj (List.not_mem_nil j)⟩
        intro j hj hcj
        rw [hdec] at hj
        rcases List.mem_append.mp hj with hj1 | hj2
        · exact lt_trans (hpre j hj1 hcj) hm
        · rcases List.mem_cons.mp hj2 with rfl | hj3
          · rw [← hm0]
            exact hm
          · exact lt_of_le_of_lt (hpost j hj3 hcj) hm
      · rw [if_neg (fun hcontra =>
          hc (of_decide_eq_true (Bool.and_eq_true_iff.mp hcontra).2))]
        refine ⟨pre, i0, post ++ [i], by rw [hdec]; simp, hci0, hm0, hf0, hp0,
          hpre, ?_⟩
        intro j hj hcj
        rcases List.mem_append.mp hj with hj1 | hj2
        · exact hpost j hj1 hcj
        · obtain rfl : j = i := by simpa using hj2
          exact absurd hcj hc
    · rw [if_neg (fun hcontra =>
        hm (of_decide_eq_true (Bool.and_eq_true_iff.mp hcontra).1))]
      refine ⟨pre, i0, post ++ [i], by rw [hdec]; simp, hci0, hm0, hf0, hp0,
        hpre, ?_⟩
      intro j hj hcj
      rcases List.mem_append.mp hj with hj1 | hj2
      · exact hpost j hj1 hcj
      · obtain rfl : j = i := by simpa using hj2
        exact le_of_not_lt hm

theorem iafScan_inv (f r t : List ℚ) :
    ∀ (is : List ℕ) (scanned : List ℕ) (acc : Option (ℚ × ℚ × ℚ)),
      ScanInv f r t scanned acc →
      ScanInv f r t (scanned ++ is) (iafScan f r t is acc) := by
  intro is
  induction is with
  | nil =>
    intro scanned acc h
    simpa using h
  | cons i is ih =>
    intro scanned acc h
    have h2 := ScanInv_step f r t scanned i acc h
    have h3 := ih (scanned ++ [i]) _ h2
    rw [List.append_assoc] at h3
    exact h3

theorem mem_range'_iff (s e i : ℕ) :
    i ∈ List.range' s (e - s) ↔ s ≤ i ∧ i < e := by
  rw [List.mem_range']
  constructor
  · rintro ⟨k, hk, rfl⟩
    omega
  · intro ⟨h1, h2⟩
    exact ⟨i - s, by omega, by omega⟩

theorem range'_decomp_order (s n : ℕ) (pre : List ℕ) (i : ℕ) (post : List ℕ)
    (h : List.range' s n = pre ++ i :: post) :
    (∀ j ∈ pre, j < i) ∧ (∀ j ∈ post, i < j) := by
  have hpw := List.pairwise_lt_range' s n
  rw [h] at hpw
  obtain ⟨hp1, hp2, hp3⟩ := List.pairwise_append.mp hpw
  exact ⟨fun j hj => hp3 j hj i (List.mem_cons_self i post),
    fun j hj => (List.pairwise_cons.mp hp2).1 j hj⟩

end CRBCalculator

namespace CRBCalculator

open EEGProcessor

/-- Claim C4 as amended: for rest and task spectra over an ascending
frequency axis that contains some frequency strictly above 14 Hz (the code's
range guard needs one), the calibration result exists if and only if some bin
with frequency in the closed interval 6 to 14 Hz has task power strictly
below rest power; a returned result reports a bin of maximal
desynchronization rest - task among such bins, ties broken by the earliest
bin in the ascending scan, with that bin's frequency, rest power and
desynchronization; and rest and task spectra identical at every bin in range
yield the null (IafNotFound) result. -/
theorem C4_iaf_selection (R T : Spectrum)
    (hmono : ∀ j, j < R.frequencies.length → ∀ i, i ≤ j →
      R.frequencies.getD i 0 ≤ R.frequencies.getD j 0)
    (hgt : ∃ j, j < R.frequencies.length ∧ 14 < R.frequencies.getD j 0) :
    ((calculateIAF R T).isSome ↔
      ∃ i, i < R.frequencies.length ∧ 6 ≤ R.frequencies.getD i 0 ∧
        R.frequencies.getD i 0 ≤ 14 ∧ T.psd.getD i 0 < R.psd.getD i 0) ∧
    (∀ res, calculateIAF R T = some res →
      ∃ i, i < R.frequencies.length ∧ 6 ≤ R.frequencies.getD i 0 ∧
        R.frequencies.getD i 0 ≤ 14 ∧ T.psd.getD i 0 < R.psd.getD i 0 ∧
        res.frequency = R.frequencies.getD i 0 ∧
        res.power = R.psd.getD i 0 ∧
        res.desynchronization = R.psd.getD i 0 - T.psd.getD i 0 ∧
        ∀ j, j < R.frequencies.length → 6 ≤ R.frequencies.getD j 0 →
          R.frequencies.getD j 0 ≤ 14 → T.psd.getD j 0 < R.psd.getD j 0 →
          R.psd.getD j 0 - T.psd.getD j 0 ≤ res.desynchronization ∧
            (R.psd.getD j 0 - T.psd.getD j 0 = res.desynchronization → i ≤ j)) ∧
    ((∀ i, i < R.frequencies.length → 6 ≤ R.frequencies.getD i 0 →
        R.frequencies.getD i 0 ≤ 14 → T.psd.getD i 0 = R.psd.getD i 0) →
      calculateIAF R T = none) := by
  obtain ⟨je, hje, hje14⟩ := hgt
  obtain ⟨e, hei⟩ := findIndex_isSome_of (fun x => decide (14 < x))
    R.frequencies je hje (decide_eq_true hje14)
  obtain ⟨he1, he2', he3'⟩ := findIndex_some_spec _ _ e hei
  have he2 : 14 < R.frequencies.getD e 0 := of_decide_eq_true he2'
  have he3 : ∀ i, i < e → R.frequencies.getD i 0 ≤ 14 := fun i hi =>
    le_of_not_lt (of_decide_eq_false (he3' i hi))
  cases hsi : findIndex (fun x => decide (6 ≤ x)) R.frequencies with
  | none =>
    have hnone : calculateIAF R T = none := by
      simp only [calculateIAF, hsi, hei]
    have hno6 : ∀ i, i < R.frequencies.length →
        ¬ 6 ≤ R.frequencies.getD i 0 := by
      intro i hi hle
      obtain ⟨j, hj⟩ := findIndex_isSome_of (fun x => decide (6 ≤ x))
        R.frequencies i hi (decide_eq_true hle)
      rw [hsi] at hj
      exact absurd hj (by simp)
    refine ⟨?_, ?_, fun _ => hnone⟩
    · rw [hnone]
      simp only [Option.isSome_none, Bool.false_eq_true, false_iff]
      rintro ⟨i, hi, h6, hrestu, hcu⟩
      exact hno6 i hi h6
    · intro res hres
      rw [hnone] at hres
      exact absurd hres (by simp)
  | some s =>
    obtain ⟨hs1, hs2', hs3'⟩ := findIndex_some_spec _ _ s hsi
    have hs2 : 6 ≤ R.frequencies.getD s 0 := of_decide_eq_true hs2'
    have hs3 : ∀ i, i < s → ¬ 6 ≤ R.frequencies.getD i 0 := fun i hi =>
      of_decide_eq_false (hs3' i hi)
    have hmem : ∀ i, i ∈ List.range' s (e - s) ↔
        (i < R.frequencies.length ∧ 6 ≤ R.frequencies.getD i 0 ∧
          R.frequencies.getD i 0 ≤ 14) := by
      intro i
      rw [mem_range'_iff]
      constructor
      · rintro ⟨hsi', hie⟩
        exact ⟨by omega, le_trans hs2 (hmono i (by omega) s hsi'), he3 i hie⟩
      · rintro ⟨hin, h6, h14⟩
        constructor
        · by_contra hlt
          push_neg at hlt
          exact hs3 i hlt h6
        · by_contra hge
          push_neg at hge
          exact absurd h14
            (not_le_of_lt (lt_of_lt_of_le he2 (hmono i hin e hge)))
    have hinit : ScanInv R.frequencies R.psd T.psd [] none :=
      fun i hi => absurd hi (List.not_mem_nil i)
    have hscan := iafScan_inv R.frequencies R.psd T.psd
      (List.range' s (e - s)) [] none hinit
    cases hacc : iafScan R.frequencies R.psd T.psd
        (List.range' s (e - s)) none with
    | none =>
      have hnone : calculateIAF R T = none := by
        simp only [calculateIAF, hsi, hei, hacc]
      rw [hacc] at hscan
      have hnocand : ∀ i ∈ List.range' s (e - s),
          ¬ T.psd.getD i 0 < R.psd.getD i 0 := hscan
      refine ⟨?_, ?_, fun _ => hnone⟩
      · rw [hnone]
        simp only [Option.isSome_none, Bool.false_eq_true, false_iff]
        rintro ⟨i, hi, h6, h14, hc⟩
        exact hnocand i ((hmem i).mpr ⟨hi, h6, h14⟩) hc
      · intro res hres
        rw [hnone] at hres
        exact absurd hres (by simp)
    | some triple =>
      obtain ⟨m, fr, pw⟩ := triple
      rw [hacc] at hscan
      obtain ⟨pre, i0, post, hdec, hci0, hm0, hf0, hp0, hpre, hpost⟩ :
          ∃ pre i0 post, List.range' s (e - s) = pre ++ i0 :: post ∧
            T.psd.getD i0 0 < R.psd.getD i0 0 ∧
            m = R.psd.getD i0 0 - T.psd.getD i0 0 ∧
            fr = R.frequencies.getD i0 0 ∧ pw = R.psd.getD i0 0 ∧
            (∀ j ∈ pre, T.psd.getD j 0 < R.psd.getD j 0 →
              R.psd.getD j 0 - T.psd.getD j 0 < m) ∧
            (∀ j ∈ post, T.psd.getD j 0 < R.psd.getD j 0 →
              R.psd.getD j 0 - T.psd.getD j 0 ≤ m) := hscan
      have hi0mem : i0 ∈ List.range' s (e - s) := by
        rw [hdec]
        exact List.mem_append.mpr (Or.inr (List.mem_cons_self i0 post))
      obtain ⟨hi0n, hi06, hi014⟩ := (hmem i0).mp hi0mem
      have hfr0 : ¬ fr = 0 := by
        rw [hf0]
        exact ne_of_gt (lt_of_lt_of_le (by norm_num) hi06)
      have hres_eq : calculateIAF R T = some ⟨fr, pw, m⟩ := by
        simp only [calculateIAF, hsi, hei, hacc, if_neg hfr0]
      have horder := range'_decomp_order s (e - s) pre i0 post hdec
      refine ⟨?_, ?_, ?_⟩
      · rw [hres_eq]
        simp only [Option.isSome_some, true_iff]
        exact ⟨i0, hi0n, hi06, hi014, hci0⟩
      · intro res hres
        rw [hres_eq] at hres
        obtain rfl : res = ⟨fr, pw, m⟩ := (Option.some.inj hres).symm
        refine ⟨i0, hi0n, hi06, hi014, hci0, hf0, hp0, hm0, ?_⟩
        intro j hj hj6 hj14 hcj
        have hjmem : j ∈ List.range' s (e - s) := (hmem j).mpr ⟨hj, hj6, hj14⟩
        rw [hdec] at hjmem
        rcases List.mem_append.mp hjmem with hjp | hjc
        · have hlt := hpre j hjp hcj
          exact ⟨le_of_lt hlt, fun heq => absurd heq (ne_of_lt hlt)⟩
        · rcases List.mem_cons.mp hjc with rfl | hjq
          · exact ⟨le_of_eq hm0.symm, fun _ => le_refl j⟩
          · exact ⟨hpost j hjq hcj, fun _ => le_of_lt (horder.2 j hjq)⟩
      · intro hident
        exact absurd hci0 (by
          rw [hident i0 hi0n hi06 hi014]
          exact lt_irrefl _)

/-- Claim C4 is false on the code as universally stated: for the ascending
frequency axis [0, 7], rest powers [5, 2] and task powers [5, 1], the bin at
7 Hz lies in the 6-14 Hz range with task power strictly below rest power,
yet calculateIAF returns null, because findIndex for a frequency above 14 Hz
returns -1 on this axis and the code then aborts before scanning any bin. -/
theorem C4_counterexample :
    calculateIAF ⟨[0, 7], [5, 2]⟩ ⟨[0, 7], [5, 1]⟩ = none ∧
    (∃ i, i < ([0, 7] : List ℚ).length ∧ 6 ≤ ([0, 7] : List ℚ).getD i 0 ∧
      ([0, 7] : List ℚ).getD i 0 ≤ 14 ∧
      ([5, 1] : List ℚ).getD i 0 < ([5, 2] : List ℚ).getD i 0) := by
  constructor
  · have e1 : (decide ((6 : ℚ) ≤ 0)) = false := by
      simp only [decide_eq_false_iff_not]
      norm_num
    have e2 : (decide ((6 : ℚ) ≤ 7)) = true := by
      simp only [decide_eq_true_eq]
      norm_num
    have e3 : (decide ((14 : ℚ) < 0)) = false := by
      simp only [decide_eq_false_iff_not]
      norm_num
    have e4 : (decide ((14 : ℚ) < 7)) = false := by
      simp only [decide_eq_false_iff_not]
      norm_num
    simp [calculateIAF, findIndex, e1, e2, e3, e4]
  · exact ⟨1, by decide, by decide, by decide, by decide⟩

/-- witness for C4_iaf_selection: axis [0, 10, 20] (ascending, 20 above 14),
rest powers [0, 5, 0], task powers [0, 3, 0]; the bin at 10 Hz shows strict
suppression, so a calibration result exists. -/
theorem C4_iaf_selection_witness :
    (calculateIAF ⟨[0, 10, 20], [0, 5, 0]⟩ ⟨[0, 10, 20], [0, 3, 0]⟩).isSome = true := by
  have h := C4_iaf_selection ⟨[0, 10, 20], [0, 5, 0]⟩ ⟨[0, 10, 20], [0, 3, 0]⟩
    (by decide) ⟨2, by decide, by decide⟩
  exact h.1.mpr ⟨1, by decide, by decide, by decide, by decide⟩

end CRBCalculator
